import Mathlib

set_option maxRecDepth 20000

/-!
Verification of the fasttime calendrical/temporal engine specification.

The core implementation is a native extension that is not part of the
source tree; every definition below is therefore modelled from the
specification document (data model, component contracts, grammar), and
each doc comment records that provenance.
-/

namespace Fasttime

/-- Modelled from the spec: the error kinds of section 7 (`InvalidComponent`,
`OutOfRange`, `Overflow`, `ParseError`). -/
inductive Err where
  | InvalidComponent
  | OutOfRange
  | Overflow
  | ParseError
deriving DecidableEq, Repr

instance instDecEqExceptErr {ε α : Type} [DecidableEq ε] [DecidableEq α] :
    DecidableEq (Except ε α)
  | .ok a, .ok b =>
      if h : a = b then .isTrue (by rw [h])
      else .isFalse (fun he => h (by injection he))
  | .ok _, .error _ => .isFalse (fun he => Except.noConfusion he)
  | .error _, .ok _ => .isFalse (fun he => Except.noConfusion he)
  | .error e, .error f =>
      if h : e = f then .isTrue (by rw [h])
      else .isFalse (fun he => h (by injection he))

/-- Modelled from the spec: the proleptic Gregorian leap rule
(leap iff year%4==0 and (year%100!=0 or year%400==0)) on a `Nat`
year residue; the rule is periodic with period 400. -/
def leapNat (k : Nat) : Bool :=
  decide (k % 4 = 0 ∧ (k % 100 ≠ 0 ∨ k % 400 = 0))

/-- Modelled from the spec: the proleptic Gregorian leap rule on a signed
year, with nonnegative-remainder (floor) modulo. -/
def isLeap (y : Int) : Bool :=
  decide (y % 4 = 0 ∧ (y % 100 ≠ 0 ∨ y % 400 = 0))

/-- Modelled from the spec: days_in_month for a given leap flag;
month 2 has 28/29 days, months 4, 6, 9, 11 have 30, the rest 31. -/
def dimN (leap : Bool) (m : Nat) : Nat :=
  if m = 2 then (if leap then 29 else 28)
  else if m = 4 ∨ m = 6 ∨ m = 9 ∨ m = 11 then 30
  else 31

/-- Day-of-era on which March-based year-of-era `y` starts
(0-based inside a 400-year era). -/
def yoeStart (y : Nat) : Nat := 365 * y + y / 4 - y / 100

/-- Day-of-year on which March-based month index `mp` (0 = March)
starts, 0-based. -/
def mpStart (mp : Nat) : Nat := (153 * mp + 2) / 5

/-- Modelled from the spec: day-of-year offset (0-based within a
March-based year) of civil month `m`, day `d`. -/
def doyOf (m d : Nat) : Nat :=
  mpStart (if 2 < m then m - 3 else m + 9) + d - 1

/-- Modelled from the spec: day-of-era (0-based within a 400-year era)
of year-of-era `yoe`, month `m`, day `d`. -/
def doeOf (yoe m d : Nat) : Nat :=
  yoeStart yoe + doyOf m d

/-- Largest `y ≤ limit` with `f y ≤ x`, assuming `f 0 ≤ x`
(downward linear scan). -/
def scanLe (f : Nat → Nat) (x : Nat) : Nat → Nat
  | 0 => 0
  | y + 1 => if f (y + 1) ≤ x then y + 1 else scanLe f x y

/-- March-based year-of-era of a day-of-era. -/
def yoeOfDoe (doe : Nat) : Nat := scanLe yoeStart doe 399

/-- Day-of-year of a day-of-era. -/
def doyOfDoe (doe : Nat) : Nat := doe - yoeStart (yoeOfDoe doe)

/-- March-based month index of a day-of-year. -/
def mpOfDoy (doy : Nat) : Nat := scanLe mpStart doy 11

/-- Civil month of a March-based month index. -/
def mOfMp (mp : Nat) : Nat := if mp < 10 then mp + 3 else mp - 9

/-- Day-of-month of a day-of-year. -/
def dOfDoy (doy : Nat) : Nat := doy - mpStart (mpOfDoy doy) + 1

/-- Modelled from the spec: civil decomposition of a day-of-era into
(March-based year-of-era, month, day); for months 1 and 2 the civil year
is `yoe + 1`. -/
def civilOfDoe (doe : Nat) : Nat × Nat × Nat :=
  (yoeOfDoe doe, mOfMp (mpOfDoy (doyOfDoe doe)), dOfDoy (doyOfDoe doe))

/-- Modelled from the spec: convert a signed epoch-day count (day 0 =
1970-01-01) to the unique proleptic Gregorian (year, month, day) triple.
Total over all integers. -/
def civil_from_days (z : Int) : Int × Nat × Nat :=
  let era := (z + 719468) / 146097
  let doe := ((z + 719468) % 146097).toNat
  let p := civilOfDoe doe
  let y := era * 400 + (p.1 : Int)
  (if p.2.1 ≤ 2 then y + 1 else y, p.2.1, p.2.2)

/-- Modelled from the spec: convert a proleptic Gregorian (year, month,
day) triple to its signed epoch-day count (day 0 = 1970-01-01). -/
def days_from_civil (y : Int) (m d : Nat) : Int :=
  let ya := if m ≤ 2 then y - 1 else y
  let era := ya / 400
  let yoe := (ya % 400).toNat
  era * 146097 + (doeOf yoe m d : Int) - 719468

theorem scanLe_bound (f : Nat → Nat) (x : Nat) :
    ∀ limit, scanLe f x limit ≤ limit := by
  intro limit
  induction limit with
  | zero => simp [scanLe]
  | succ l ih =>
    simp only [scanLe]
    split
    · exact Nat.le_refl _
    · exact Nat.le_succ_of_le ih

theorem scanLe_le (f : Nat → Nat) (x : Nat) (h0 : f 0 ≤ x) :
    ∀ limit, f (scanLe f x limit) ≤ x := by
  intro limit
  induction limit with
  | zero => simp only [scanLe]; exact h0
  | succ l ih =>
    simp only [scanLe]
    split
    · assumption
    · exact ih

theorem scanLe_lt (f : Nat → Nat) (x : Nat) :
    ∀ limit, x < f (limit + 1) → x < f (scanLe f x limit + 1) := by
  intro limit
  induction limit with
  | zero => exact id
  | succ l ih =>
    intro h
    simp only [scanLe]
    split
    · exact h
    · exact ih (by omega)

theorem scanLe_max (f : Nat → Nat) (x y : Nat) (hy : f y ≤ x) :
    ∀ limit, y ≤ limit → (∀ z, y < z → z ≤ limit → x < f z) →
      scanLe f x limit = y := by
  intro limit
  induction limit with
  | zero => intro h _; simp [scanLe]; omega
  | succ l ih =>
    intro hle hz
    simp only [scanLe]
    split
    · rcases Nat.lt_or_ge y (l + 1) with hc | hc
      · exact absurd (hz (l + 1) hc (Nat.le_refl _)) (by omega)
      · omega
    · have hne : y ≠ l + 1 := by
        intro he; subst he; omega
      exact ih (by omega) (fun z h1 h2 => hz z h1 (Nat.le_succ_of_le h2))

theorem yoeStart_mono {a b : Nat} (h : a ≤ b) : yoeStart a ≤ yoeStart b := by
  have h1 : a / 4 ≤ b / 4 := Nat.div_le_div_right h
  have h3 : b / 100 ≤ a / 100 + (b - a) := by omega
  unfold yoeStart
  omega

theorem mpStart_mono {a b : Nat} (h : a ≤ b) : mpStart a ≤ mpStart b := by
  have h1 : (153 * a + 2) / 5 ≤ (153 * b + 2) / 5 :=
    Nat.div_le_div_right (by omega)
  unfold mpStart
  omega

/-- A March-based year-of-era below 399 spans 366 days exactly when the
civil year `yoe + 1` containing its February is a Gregorian leap year. -/
theorem yearLen_leap {yoe : Nat} (h : yoe ≤ 398) :
    (leapNat ((yoe + 1) % 400) = true ↔ yoeStart (yoe + 1) - yoeStart yoe = 366) ∧
    365 ≤ yoeStart (yoe + 1) - yoeStart yoe ∧
    yoeStart (yoe + 1) - yoeStart yoe ≤ 366 := by
  simp only [leapNat, decide_eq_true_eq, yoeStart]
  omega

/-- Month-length table for March-based month indexes other than
February: the step of `mpStart` matches `dimN`, independently of the
leap flag. -/
theorem mp_dim (mp : Nat) (h : mp < 11) :
    mpStart (mp + 1) - mpStart mp = dimN true (mOfMp mp) ∧
    dimN true (mOfMp mp) = dimN false (mOfMp mp) := by
  interval_cases mp <;> simp [mpStart, dimN, mOfMp]

/-- The civil decomposition of a day-of-era yields in-range fields that
recombine to the same day-of-era. -/
theorem civilOfDoe_spec (doe : Nat) (h : doe < 146097) :
    (civilOfDoe doe).1 ≤ 399 ∧
    1 ≤ (civilOfDoe doe).2.1 ∧ (civilOfDoe doe).2.1 ≤ 12 ∧
    1 ≤ (civilOfDoe doe).2.2 ∧
    (civilOfDoe doe).2.2 ≤
      dimN (leapNat (if (civilOfDoe doe).2.1 ≤ 2 then ((civilOfDoe doe).1 + 1) % 400
        else (civilOfDoe doe).1)) (civilOfDoe doe).2.1 ∧
    doeOf (civilOfDoe doe).1 (civilOfDoe doe).2.1 (civilOfDoe doe).2.2 = doe := by
  have e400 : yoeStart (399 + 1) = 146096 := by decide
  have e399 : yoeStart 399 = 145731 := by decide
  have em12 : mpStart (11 + 1) = 367 := by decide
  have em11 : mpStart 11 = 337 := by decide
  have ey0 : yoeStart 0 = 0 := by decide
  have em0 : mpStart 0 = 0 := by decide
  simp only [civilOfDoe]
  set yoe := yoeOfDoe doe with hyoe
  have hyb : yoe ≤ 399 := scanLe_bound yoeStart doe 399
  have hy1 : yoeStart yoe ≤ doe :=
    scanLe_le yoeStart doe (by omega) 399
  have hy2 : doe < yoeStart (yoe + 1) ∨ (yoe = 399 ∧ doe = 146096) := by
    rcases Nat.lt_or_ge doe 146096 with hc | hc
    · exact Or.inl (scanLe_lt yoeStart doe 399 (by omega))
    · have hde : doe = 146096 := by omega
      have h9 : yoeOfDoe doe = 399 := by
        apply scanLe_max yoeStart doe 399 (by omega) 399 (Nat.le_refl _)
        intro z h1 h2; omega
      exact Or.inr ⟨by rw [hyoe, h9], hde⟩
  have hdoyd : doyOfDoe doe = doe - yoeStart yoe := by
    simp only [doyOfDoe, hyoe]
  set doy := doyOfDoe doe with hdoy
  have hylen : yoe ≤ 398 → 365 ≤ yoeStart (yoe + 1) - yoeStart yoe ∧
      yoeStart (yoe + 1) - yoeStart yoe ≤ 366 := fun hy => (yearLen_leap hy).2
  have hdoy365 : doy ≤ 365 := by
    rcases hy2 with hc | ⟨hc1, hc2⟩
    · rcases Nat.lt_or_ge yoe 399 with hc3 | hc3
      · obtain ⟨hl1, hl2⟩ := hylen (by omega)
        omega
      · have h9 : yoe = 399 := by omega
        have hys : yoeStart yoe = 145731 := by rw [h9]; exact e399
        have hys1 : yoeStart (yoe + 1) = 146096 := by rw [h9]; exact e400
        omega
    · have hys : yoeStart yoe = 145731 := by rw [hc1]; exact e399
      omega
  set mp := mpOfDoy doy with hmp
  have hmb : mp ≤ 11 := scanLe_bound mpStart doy 11
  have hm1 : mpStart mp ≤ doy :=
    scanLe_le mpStart doy (by omega) 11
  have hm2 : doy < mpStart (mp + 1) :=
    scanLe_lt mpStart doy 11 (by omega)
  have hdd : dOfDoy doy = doy - mpStart mp + 1 := by
    simp only [dOfDoy, hmp]
  set m := mOfMp mp with hm
  set d := dOfDoy doy with hd
  have hmval : (1 ≤ m ∧ m ≤ 12) ∧ (if 2 < m then m - 3 else m + 9) = mp := by
    rw [hm]; unfold mOfMp
    split <;> split <;> omega
  have hrecomb : doeOf yoe m d = doe := by
    unfold doeOf doyOf
    rw [hmval.2, hdd]
    omega
  refine ⟨hyb, hmval.1.1, hmval.1.2, by omega, ?_, hrecomb⟩
  -- day-of-month upper bound
  rcases Nat.lt_or_ge mp 11 with hc | hc
  · -- months other than February: length independent of the leap flag
    have hdle : d ≤ mpStart (mp + 1) - mpStart mp := by omega
    have htab := mp_dim mp hc
    rw [← hm] at htab
    cases hflag : leapNat (if m ≤ 2 then (yoe + 1) % 400 else yoe) <;> omega
  · -- February
    have hmp11 : mp = 11 := by omega
    have hmeq : m = 2 := by rw [hm, hmp11]; simp [mOfMp]
    have hdval : d = doy - 337 + 1 := by rw [hdd, hmp11, em11]
    have hkey : (leapNat ((yoe + 1) % 400) = true → d ≤ 29) ∧
        (leapNat ((yoe + 1) % 400) = false → d ≤ 28) := by
      constructor
      · intro _; omega
      · intro hfl
        rcases hy2 with hc2 | ⟨hc21, hc22⟩
        · rcases Nat.lt_or_ge yoe 399 with hc3 | hc3
          · have hiff := (yearLen_leap (show yoe ≤ 398 by omega)).1
            obtain ⟨hl1, hl2⟩ := hylen (by omega)
            have hne : yoeStart (yoe + 1) - yoeStart yoe ≠ 366 := by
              intro he
              have := hiff.mpr he
              rw [hfl] at this
              cases this
            omega
          · have h399 : yoe = 399 := by omega
            rw [h399] at hfl
            have hl : leapNat ((399 + 1) % 400) = true := by decide
            rw [hl] at hfl
            cases hfl
        · rw [hc21] at hfl
          have hl : leapNat ((399 + 1) % 400) = true := by decide
          rw [hl] at hfl
          cases hfl
    have hcond : (if m ≤ 2 then (yoe + 1) % 400 else yoe) = (yoe + 1) % 400 := by
      rw [hmeq]; simp
    rw [hcond, hmeq]
    cases hflag : leapNat ((yoe + 1) % 400)
    · simp only [dimN, if_pos rfl, Bool.false_eq_true, if_false]
      exact hkey.2 hflag
    · simp only [dimN, if_pos rfl, if_true]
      exact hkey.1 hflag

/-- Month-length table keyed by the civil month: for months other than
February the `mpStart` step equals `dimN`, independently of the leap
flag. -/
theorem m_dim (m : Nat) (hm1 : 1 ≤ m) (hm2 : m ≤ 12) (hne : m ≠ 2) :
    mpStart ((if 2 < m then m - 3 else m + 9) + 1) -
        mpStart (if 2 < m then m - 3 else m + 9) = dimN true m ∧
    dimN true m = dimN false m := by
  interval_cases m <;> simp_all [mpStart, dimN]

/-- Every month has at most 31 days. -/
theorem dimN_le31 (L : Bool) (m : Nat) : dimN L m ≤ 31 := by
  unfold dimN
  split
  · split <;> omega
  · split <;> omega

/-- Recombining a valid (year-of-era, month, day) triple gives a
day-of-era below 146097 that decomposes back to the same triple. -/
theorem civilOfDoe_doeOf (yoe m d : Nat) (hy : yoe ≤ 399) (hm1 : 1 ≤ m) (hm2 : m ≤ 12)
    (hd1 : 1 ≤ d) (hd2 : d ≤ dimN (leapNat (if m ≤ 2 then (yoe + 1) % 400 else yoe)) m) :
    doeOf yoe m d < 146097 ∧ civilOfDoe (doeOf yoe m d) = (yoe, m, d) := by
  have e399 : yoeStart 399 = 145731 := by decide
  have em12 : mpStart (11 + 1) = 367 := by decide
  have em11 : mpStart 11 = 337 := by decide
  have em10 : mpStart 10 = 306 := by decide
  set mp := (if 2 < m then m - 3 else m + 9) with hmp
  have hmpb : mp ≤ 11 := by rw [hmp]; split <;> omega
  have hmOf : mOfMp mp = m := by
    unfold mOfMp
    rw [hmp]
    by_cases h23 : 2 < m
    · rw [if_pos h23, if_pos (by omega)]; omega
    · rw [if_neg h23, if_neg (by omega)]; omega
  have hdoyv : doyOf m d = mpStart mp + d - 1 := by
    unfold doyOf
    rw [← hmp]
  have hdle29 : m = 2 → d ≤ 29 := by
    intro hme
    have h31 := dimN_le31 (leapNat (if m ≤ 2 then (yoe + 1) % 400 else yoe)) m
    cases hb : leapNat (if m ≤ 2 then (yoe + 1) % 400 else yoe) <;>
      (rw [hb] at hd2; rw [hme] at hd2; simp [dimN] at hd2; omega)
  have h_doy_lo : mpStart mp ≤ doyOf m d := by omega
  have h_doy_hi : doyOf m d < mpStart (mp + 1) := by
    by_cases hm2c : m = 2
    · have hmp11 : mp = 11 := by rw [hmp, hm2c]; decide
      rw [hmp11] at hdoyv ⊢
      have := hdle29 hm2c
      omega
    · obtain ⟨ht1, ht2⟩ := m_dim m hm1 hm2 hm2c
      rw [← hmp] at ht1
      have hdd : d ≤ dimN true m := by
        cases hb : leapNat (if m ≤ 2 then (yoe + 1) % 400 else yoe) <;> rw [hb] at hd2 <;> omega
      omega
  have hdoy365 : doyOf m d ≤ 365 := by
    rcases Nat.lt_or_ge mp 11 with hc | hc
    · have hms : mpStart (mp + 1) ≤ mpStart 11 := mpStart_mono (by omega)
      omega
    · have hmp11 : mp = 11 := by omega
      rw [hmp11] at hdoyv
      have hm2c : m = 2 := by
        rw [hmp] at hmp11
        by_cases h23 : 2 < m
        · rw [if_pos h23] at hmp11; omega
        · rw [if_neg h23] at hmp11; omega
      have := hdle29 hm2c
      omega
  have h_doe_lo : yoeStart yoe ≤ doeOf yoe m d := by
    unfold doeOf; omega
  have h_doe_v : doeOf yoe m d = yoeStart yoe + doyOf m d := rfl
  have h_doe_lt : doeOf yoe m d < 146097 := by
    have := yoeStart_mono hy
    omega
  have hz : ∀ z, yoe < z → z ≤ 399 → doeOf yoe m d < yoeStart z := by
    intro z hz1 hz2
    have hmono : yoeStart (yoe + 1) ≤ yoeStart z := yoeStart_mono (by omega)
    obtain ⟨hiff, hl1, hl2⟩ := yearLen_leap (show yoe ≤ 398 by omega)
    by_cases hm2c : m = 2
    · have hcnd : (if m ≤ 2 then (yoe + 1) % 400 else yoe) = (yoe + 1) % 400 := by
        rw [hm2c]; simp
      have hmp11 : mp = 11 := by rw [hmp, hm2c]; decide
      rw [hmp11] at hdoyv
      rw [hcnd] at hd2
      cases hb : leapNat ((yoe + 1) % 400)
      · rw [hb] at hd2
        rw [hm2c] at hd2
        simp [dimN] at hd2
        omega
      · rw [hb] at hd2
        have h366 := hiff.mp hb
        have := hdle29 hm2c
        omega
    · have hmple : mp ≤ 10 := by
        rw [hmp]
        by_cases h23 : 2 < m
        · rw [if_pos h23]; omega
        · rw [if_neg h23]; omega
      have hms : mpStart (mp + 1) ≤ mpStart 11 := mpStart_mono (by omega)
      omega
  have hscan_y : yoeOfDoe (doeOf yoe m d) = yoe :=
    scanLe_max yoeStart (doeOf yoe m d) yoe h_doe_lo 399 hy hz
  have hdoyOfDoe : doyOfDoe (doeOf yoe m d) = doyOf m d := by
    unfold doyOfDoe
    rw [hscan_y]
    omega
  have hmscan : mpOfDoy (doyOf m d) = mp :=
    scanLe_max mpStart (doyOf m d) mp h_doy_lo 11 hmpb
      (fun z hz1 hz2 => Nat.lt_of_lt_of_le h_doy_hi (mpStart_mono (by omega)))
  refine ⟨h_doe_lt, ?_⟩
  simp only [civilOfDoe, Prod.mk.injEq]
  refine ⟨hscan_y, ?_, ?_⟩
  · rw [hdoyOfDoe, hmscan, hmOf]
  · unfold dOfDoy
    rw [hdoyOfDoe, hmscan]
    omega

/-- Definitional unfolding of `civil_from_days`. -/
theorem civil_from_days_eq (z : Int) :
    civil_from_days z =
      (if (civilOfDoe ((z + 719468) % 146097).toNat).2.1 ≤ 2
        then (z + 719468) / 146097 * 400 + ((civilOfDoe ((z + 719468) % 146097).toNat).1 : Int) + 1
        else (z + 719468) / 146097 * 400 + ((civilOfDoe ((z + 719468) % 146097).toNat).1 : Int),
       (civilOfDoe ((z + 719468) % 146097).toNat).2.1,
       (civilOfDoe ((z + 719468) % 146097).toNat).2.2) := rfl

/-- Definitional unfolding of `days_from_civil`. -/
theorem days_from_civil_eq (y : Int) (m d : Nat) :
    days_from_civil y m d =
      ((if m ≤ 2 then y - 1 else y) / 400) * 146097 +
        (doeOf (((if m ≤ 2 then y - 1 else y) % 400).toNat) m d : Int) - 719468 := rfl

/-- Left-inverse law on day counts: decomposing any epoch-day count to a
civil triple and recombining returns the same count. -/
theorem days_civil_days (z : Int) :
    days_from_civil (civil_from_days z).1 (civil_from_days z).2.1 (civil_from_days z).2.2 = z := by
  rw [civil_from_days_eq]
  dsimp only
  set q := (z + 719468) / 146097 with hq
  set r := (z + 719468) % 146097 with hr
  have hr0 : 0 ≤ r := Int.emod_nonneg _ (by norm_num)
  have hr1 : r < 146097 := Int.emod_lt_of_pos _ (by norm_num)
  have hzd : z + 719468 = 146097 * q + r := by rw [hq, hr]; omega
  set doe := r.toNat with hdoe
  have hdoen : (doe : Int) = r := Int.toNat_of_nonneg hr0
  have hdoelt : doe < 146097 := by omega
  obtain ⟨s1, s2, s3, s4, s5, s6⟩ := civilOfDoe_spec doe hdoelt
  rw [days_from_civil_eq]
  by_cases hple : (civilOfDoe doe).2.1 ≤ 2
  · rw [if_pos hple, if_pos hple]
    have hsub : q * 400 + ((civilOfDoe doe).1 : Int) + 1 - 1 = q * 400 + ((civilOfDoe doe).1 : Int) := by
      omega
    rw [hsub]
    have hdiv : (q * 400 + ((civilOfDoe doe).1 : Int)) / 400 = q := by omega
    have hmod : (q * 400 + ((civilOfDoe doe).1 : Int)) % 400 = ((civilOfDoe doe).1 : Int) := by omega
    rw [hdiv, hmod, Int.toNat_natCast, s6]
    omega
  · rw [if_neg hple, if_neg hple]
    have hdiv : (q * 400 + ((civilOfDoe doe).1 : Int)) / 400 = q := by omega
    have hmod : (q * 400 + ((civilOfDoe doe).1 : Int)) % 400 = ((civilOfDoe doe).1 : Int) := by omega
    rw [hdiv, hmod, Int.toNat_natCast, s6]
    omega

/-- Right-inverse law on civil triples: a valid (year, month, day)
converts to an epoch-day count that decomposes back to the same triple. -/
theorem civil_days_civil (y : Int) (m d : Nat) (hm1 : 1 ≤ m) (hm2 : m ≤ 12)
    (hd1 : 1 ≤ d) (hd2 : d ≤ dimN (isLeap y) m) :
    civil_from_days (days_from_civil y m d) = (y, m, d) := by
  set ya := if m ≤ 2 then y - 1 else y with hya
  set q := ya / 400 with hq
  set yr := ya % 400 with hyr
  have hyr0 : 0 ≤ yr := Int.emod_nonneg _ (by norm_num)
  have hyr1 : yr < 400 := Int.emod_lt_of_pos _ (by norm_num)
  have hyd : ya = 400 * q + yr := by rw [hq, hyr]; omega
  set yoe := yr.toNat with hyoe
  have hyoen : (yoe : Int) = yr := Int.toNat_of_nonneg hyr0
  have hyoeb : yoe ≤ 399 := by omega
  have hleap : isLeap y = leapNat (if m ≤ 2 then (yoe + 1) % 400 else yoe) := by
    by_cases hple : m ≤ 2
    · have hyv : y = 400 * q + (yoe : Int) + 1 := by
        have : ya = y - 1 := by rw [hya, if_pos hple]
        omega
      rw [if_pos hple]
      rcases Nat.lt_or_ge yoe 399 with hc | hc
      · have hmod : (yoe + 1) % 400 = yoe + 1 := Nat.mod_eq_of_lt (by omega)
        rw [hmod]
        unfold isLeap leapNat
        rw [decide_eq_decide]
        omega
      · have h399 : yoe = 399 := by omega
        have hmod : (yoe + 1) % 400 = 0 := by omega
        rw [hmod]
        unfold isLeap leapNat
        rw [decide_eq_decide]
        omega
    · have hyv : y = 400 * q + (yoe : Int) := by
        have : ya = y := by rw [hya, if_neg hple]
        omega
      rw [if_neg hple]
      unfold isLeap leapNat
      rw [decide_eq_decide]
      omega
  have hd2' : d ≤ dimN (leapNat (if m ≤ 2 then (yoe + 1) % 400 else yoe)) m := by
    rw [← hleap]; exact hd2
  obtain ⟨hlt, hcv⟩ := civilOfDoe_doeOf yoe m d hyoeb hm1 hm2 hd1 hd2'
  have hdfc : days_from_civil y m d = q * 146097 + (doeOf yoe m d : Int) - 719468 := by
    rw [days_from_civil_eq, ← hya, ← hq, ← hyr, ← hyoe]
  rw [hdfc, civil_from_days_eq]
  have hz719 : q * 146097 + (doeOf yoe m d : Int) - 719468 + 719468 = 146097 * q + (doeOf yoe m d : Int) := by
    omega
  rw [hz719]
  have hdiv : (146097 * q + (doeOf yoe m d : Int)) / 146097 = q := by omega
  have hmod : (146097 * q + (doeOf yoe m d : Int)) % 146097 = (doeOf yoe m d : Int) := by omega
  rw [hdiv, hmod, Int.toNat_natCast, hcv]
  dsimp only
  by_cases hple : m ≤ 2
  · rw [if_pos hple]
    have hyav : ya = y - 1 := by rw [hya, if_pos hple]
    simp only [Prod.mk.injEq, and_true]
    omega
  · rw [if_neg hple]
    have hyav : ya = y := by rw [hya, if_neg hple]
    simp only [Prod.mk.injEq, and_true]
    omega

/-- Modelled from the spec: the Weekday enumeration. -/
inductive Weekday where
  | monday
  | tuesday
  | wednesday
  | thursday
  | friday
  | saturday
  | sunday
deriving DecidableEq, Repr

/-- Modelled from the spec: 1-based index of a weekday counted from
Monday. -/
def Weekday.number_from_monday : Weekday → Nat
  | .monday => 1
  | .tuesday => 2
  | .wednesday => 3
  | .thursday => 4
  | .friday => 5
  | .saturday => 6
  | .sunday => 7

/-- Cyclic successor of a weekday. -/
def Weekday.next : Weekday → Weekday
  | .monday => .tuesday
  | .tuesday => .wednesday
  | .wednesday => .thursday
  | .thursday => .friday
  | .friday => .saturday
  | .saturday => .sunday
  | .sunday => .monday

/-- Modelled from the spec: a Date is a signed integer day-count
relative to 1970-01-01; year/month/day are derived views. -/
structure Date where
  days : Int
deriving DecidableEq, Repr

/-- Derived year view. -/
def Date.year (dt : Date) : Int := (civil_from_days dt.days).1

/-- Derived month view. -/
def Date.month (dt : Date) : Nat := (civil_from_days dt.days).2.1

/-- Derived day-of-month view. -/
def Date.day (dt : Date) : Nat := (civil_from_days dt.days).2.2

/-- Modelled from the spec: total conversion from an epoch-day count. -/
def Date.from_days_since_unix_epoch (n : Int) : Date := ⟨n⟩

/-- Modelled from the spec: the epoch-day count of a Date. -/
def Date.days_since_unix_epoch (dt : Date) : Int := dt.days

/-- Modelled from the spec: weekday via epoch-day modulo 7 with floor
(nonnegative-remainder) modulo, fixed reference 1970-01-01 = Thursday. -/
def Date.weekday (dt : Date) : Weekday :=
  match ((dt.days + 3) % 7).toNat with
  | 0 => .monday
  | 1 => .tuesday
  | 2 => .wednesday
  | 3 => .thursday
  | 4 => .friday
  | 5 => .saturday
  | _ => .sunday

/-- Modelled from the spec: total day addition on the epoch-day count. -/
def Date.add_days (dt : Date) (n : Int) : Date := ⟨dt.days + n⟩

/-- Modelled from the spec: validating date constructor — fails with
`InvalidComponent` when month is outside [1,12] or day is out of range
for the (year, month) under the proleptic Gregorian leap rule. -/
def date (y : Int) (m d : Nat) : Except Err Date :=
  if 1 ≤ m ∧ m ≤ 12 then
    if 1 ≤ d ∧ d ≤ dimN (isLeap y) m then .ok ⟨days_from_civil y m d⟩
    else .error .InvalidComponent
  else .error .InvalidComponent

/-- Nanoseconds in one day. -/
def DAY_NANOS : Nat := 86400000000000

/-- Modelled from the spec: a Time is a count of nanoseconds since
midnight in [0, 86_400_000_000_000); hour/minute/second/nanosecond are
derived views. -/
structure Time where
  nanos : Nat
deriving DecidableEq, Repr

/-- Derived hour view. -/
def Time.hour (t : Time) : Nat := t.nanos / 3600000000000

/-- Derived minute view. -/
def Time.minute (t : Time) : Nat := t.nanos / 60000000000 % 60

/-- Derived second view. -/
def Time.second (t : Time) : Nat := t.nanos / 1000000000 % 60

/-- Derived sub-second nanosecond view. -/
def Time.nanosecond (t : Time) : Nat := t.nanos % 1000000000

/-- Modelled from the spec: exact derived accessor. -/
def Time.nanos_since_midnight (t : Time) : Nat := t.nanos

/-- Modelled from the spec: validating time constructor — fails with
`InvalidComponent` when hour is outside [0,23], minute outside [0,59],
second outside [0,59], or nanosecond outside [0,999_999_999]. -/
def time (h m s n : Nat) : Except Err Time :=
  if h ≤ 23 ∧ m ≤ 59 ∧ s ≤ 59 ∧ n ≤ 999999999 then
    .ok ⟨h * 3600000000000 + m * 60000000000 + s * 1000000000 + n⟩
  else .error .InvalidComponent

/-- Modelled from the spec: a Duration is a signed quantity of
nanoseconds; the representable range is modelled as a signed 128-bit
magnitude. -/
structure Duration where
  nanos : Int
deriving DecidableEq, Repr

/-- Smallest representable Duration value in nanoseconds
(the signed 128-bit minimum). -/
def DUR_MIN : Int := -170141183460469231731687303715884105728

/-- Largest representable Duration value in nanoseconds
(the signed 128-bit maximum). -/
def DUR_MAX : Int := 170141183460469231731687303715884105727

/-- Modelled from the spec: checked construction into the canonical
signed-nanosecond representation; fails with `Overflow` outside the
representable range rather than silently wrapping. -/
def mkDuration (n : Int) : Except Err Duration :=
  if DUR_MIN ≤ n ∧ n ≤ DUR_MAX then .ok ⟨n⟩ else .error .Overflow

/-- Modelled from the spec: exact integer total in nanoseconds. -/
def Duration.total_nanos (d : Duration) : Int := d.nanos

/-- Modelled from the spec: checked addition. -/
def Duration.add (a b : Duration) : Except Err Duration :=
  mkDuration (a.nanos + b.nanos)

/-- Modelled from the spec: checked subtraction. -/
def Duration.sub (a b : Duration) : Except Err Duration :=
  mkDuration (a.nanos - b.nanos)

/-- Modelled from the spec: checked unary negation. -/
def Duration.neg (a : Duration) : Except Err Duration :=
  mkDuration (-a.nanos)

/-- Modelled from the spec: exact scaling constructor from seconds. -/
def Duration.seconds (s : Int) : Except Err Duration :=
  mkDuration (s * 1000000000)

/-- Modelled from the spec: exact scaling constructor from
milliseconds. -/
def Duration.milliseconds (s : Int) : Except Err Duration :=
  mkDuration (s * 1000000)

/-- Modelled from the spec: a DateTime is a pure (Date, Time) pair. -/
structure DateTime where
  date : Date
  time : Time
deriving DecidableEq, Repr

/-- Absolute nanosecond coordinate of a DateTime
(epoch-day × day-nanos + nanos-of-day). -/
def DateTime.pos (x : DateTime) : Int :=
  x.date.days * (DAY_NANOS : Int) + (x.time.nanos : Int)

/-- Modelled from the spec: carry-safe duration addition — add on the
absolute nanosecond coordinate and re-split by floor division so the
nanos-of-day lands in range and overflow carries into the date. -/
def DateTime.add_duration (x : DateTime) (d : Duration) : DateTime :=
  ⟨⟨(x.pos + d.nanos) / (DAY_NANOS : Int)⟩,
   ⟨((x.pos + d.nanos) % (DAY_NANOS : Int)).toNat⟩⟩

/-- Modelled from the spec: signed nanosecond distance from `b` to `a`. -/
def DateTime.difference (a b : DateTime) : Duration := ⟨a.pos - b.pos⟩

/-- Modelled from the spec: inverse of the Unix timestamp accessors via
floor-based day/time splitting (not truncation). -/
def DateTime.from_unix_timestamp (s : Int) (n : Nat) : DateTime :=
  ⟨⟨s / 86400⟩, ⟨(s % 86400).toNat * 1000000000 + n⟩⟩

/-- Modelled from the spec: whole-second Unix timestamp derived from the
epoch-day/nanos-of-day split. -/
def DateTime.unix_timestamp (x : DateTime) : Int :=
  x.date.days * 86400 + (x.time.nanos / 1000000000 : Nat)

/-- Modelled from the spec: nanosecond Unix timestamp. -/
def DateTime.unix_timestamp_nanos (x : DateTime) : Int := x.pos

/-- Modelled from the spec: a fixed UTC offset in signed seconds,
positive = ahead of UTC. -/
structure UtcOffset where
  seconds : Int
deriving DecidableEq, Repr

/-- Offset in seconds. -/
def UtcOffset.as_seconds (o : UtcOffset) : Int := o.seconds

/-- Modelled from the spec: an OffsetDateTime is a (local wall-clock
DateTime, UtcOffset) pair; the UTC-equivalent DateTime is derived as
local − offset. -/
structure OffsetDateTime where
  local_datetime : DateTime
  offset : UtcOffset
deriving DecidableEq, Repr

/-- Modelled from the spec: pure accessor for the stored local
DateTime. -/
def OffsetDateTime.to_local (o : OffsetDateTime) : DateTime :=
  o.local_datetime

/-- Modelled from the spec: derived UTC instant, utc = local − offset. -/
def OffsetDateTime.utc (o : OffsetDateTime) : DateTime :=
  o.local_datetime.add_duration ⟨-(o.offset.seconds * 1000000000)⟩

/-- Modelled from the spec: construct from a UTC instant,
local = utc + offset. -/
def OffsetDateTime.from_utc (u : DateTime) (off : UtcOffset) : OffsetDateTime :=
  ⟨u.add_duration ⟨off.seconds * 1000000000⟩, off⟩

/-- Modelled from the spec: construct from local wall-clock components. -/
def OffsetDateTime.from_local (d : Date) (t : Time) (off : UtcOffset) : OffsetDateTime :=
  ⟨⟨d, t⟩, off⟩

/-- Modelled from the spec: equality of OffsetDateTime values compares
derived UTC instants only — the stored offset is not part of identity. -/
def OffsetDateTime.eqInstant (a b : OffsetDateTime) : Prop :=
  a.utc = b.utc

/-- Modelled from the spec: the host layer exposes Date as a hashable
object whose hash is a pure function of the canonical day-count (values
equal as dates must hash identically). -/
def Date.hashVal (dt : Date) : Nat :=
  (dt.days * 2654435761 % 18446744073709551616).toNat

/-- Decimal value of an ASCII digit character. -/
def digVal (c : Char) : Nat := c.toNat - 48

/-- Modelled from the spec: fixed-width digit-run parser (state-machine
style, any deviation is a `ParseError`). -/
def parseFixed : Nat → Nat → List Char → Except Err (Nat × List Char)
  | acc, 0, cs => .ok (acc, cs)
  | _, _ + 1, [] => .error .ParseError
  | acc, w + 1, c :: cs =>
      if c.isDigit then parseFixed (acc * 10 + digVal c) w cs
      else .error .ParseError

/-- Expect one specific literal character. -/
def expectChar (ch : Char) : List Char → Except Err (List Char)
  | [] => .error .ParseError
  | c :: cs => if c = ch then .ok cs else .error .ParseError

/-- Take a maximal run of digits, returning the accumulated value, the
digit count, and the remaining input. -/
def takeDigits : Nat → Nat → List Char → Nat × Nat × List Char
  | acc, cnt, [] => (acc, cnt, [])
  | acc, cnt, c :: cs =>
      if c.isDigit then takeDigits (acc * 10 + digVal c) (cnt + 1) cs
      else (acc, cnt, c :: cs)

/-- Modelled from the spec: date grammar, exactly `YYYY-MM-DD` with
zero-padded fields; wrong digit counts, separators, or out-of-range
fields are a `ParseError`. -/
def parseDateCore (cs : List Char) : Except Err (Date × List Char) := do
  let (y, cs) ← parseFixed 0 4 cs
  let cs ← expectChar '-' cs
  let (m, cs) ← parseFixed 0 2 cs
  let cs ← expectChar '-' cs
  let (d, cs) ← parseFixed 0 2 cs
  if 1 ≤ m ∧ m ≤ 12 ∧ 1 ≤ d ∧ d ≤ dimN (isLeap (y : Int)) m then
    .ok (⟨days_from_civil (y : Int) m d⟩, cs)
  else .error .ParseError

/-- Modelled from the spec: time grammar `HH:MM:SS` with an optional
`.` and 1–9 fractional digits, right-padded to nanosecond precision;
more than 9 fractional digits or out-of-range fields are a
`ParseError`. -/
def parseTimeCore (cs : List Char) : Except Err (Time × List Char) := do
  let (h, cs) ← parseFixed 0 2 cs
  let cs ← expectChar ':' cs
  let (mi, cs) ← parseFixed 0 2 cs
  let cs ← expectChar ':' cs
  let (s, cs) ← parseFixed 0 2 cs
  if h ≤ 23 ∧ mi ≤ 59 ∧ s ≤ 59 then
    match cs with
    | '.' :: cs1 =>
        let r := takeDigits 0 0 cs1
        if 1 ≤ r.2.1 ∧ r.2.1 ≤ 9 then
          .ok (⟨h * 3600000000000 + mi * 60000000000 + s * 1000000000 +
            r.1 * 10 ^ (9 - r.2.1)⟩, r.2.2)
        else .error .ParseError
    | _ => .ok (⟨h * 3600000000000 + mi * 60000000000 + s * 1000000000⟩, cs)
  else .error .ParseError

/-- Modelled from the spec: offset tail — literal `Z` (offset zero) or
`±HH:MM`. -/
def parseOffsetCore (cs : List Char) : Except Err (UtcOffset × List Char) :=
  match cs with
  | 'Z' :: rest => .ok (⟨0⟩, rest)
  | '+' :: rest => do
      let (hh, rest) ← parseFixed 0 2 rest
      let rest ← expectChar ':' rest
      let (mm, rest) ← parseFixed 0 2 rest
      if hh ≤ 23 ∧ mm ≤ 59 then .ok (⟨((hh * 3600 + mm * 60 : Nat) : Int)⟩, rest)
      else .error .ParseError
  | '-' :: rest => do
      let (hh, rest) ← parseFixed 0 2 rest
      let rest ← expectChar ':' rest
      let (mm, rest) ← parseFixed 0 2 rest
      if hh ≤ 23 ∧ mm ≤ 59 then .ok (⟨-((hh * 3600 + mm * 60 : Nat) : Int)⟩, rest)
      else .error .ParseError
  | _ => .error .ParseError

/-- Modelled from the spec: full-string Time parse. -/
def Time.parse (s : String) : Except Err Time :=
  match parseTimeCore s.toList with
  | .ok (t, []) => .ok t
  | .ok (_, _ :: _) => .error .ParseError
  | .error e => .error e

/-- Modelled from the spec: full-string Date parse. -/
def Date.parse (s : String) : Except Err Date :=
  match parseDateCore s.toList with
  | .ok (dt, []) => .ok dt
  | .ok (_, _ :: _) => .error .ParseError
  | .error e => .error e

/-- Modelled from the spec: full-string OffsetDateTime parse,
`<Date>T<Time>` followed by `Z` or `±HH:MM`. -/
def OffsetDateTime.parse (s : String) : Except Err OffsetDateTime :=
  match (do
    let (dt, cs) ← parseDateCore s.toList
    let cs ← expectChar 'T' cs
    let (t, cs) ← parseTimeCore cs
    let (off, cs) ← parseOffsetCore cs
    pure (OffsetDateTime.mk ⟨dt, t⟩ off, cs) : Except Err (OffsetDateTime × List Char)) with
  | .ok (o, []) => .ok o
  | .ok (_, _ :: _) => .error .ParseError
  | .error e => .error e

/-- Zero-padded fixed-width decimal rendering of `n` (width `w`). -/
def padN : Nat → Nat → List Char
  | 0, _ => []
  | w + 1, n => Nat.digitChar (n / 10 ^ w) :: padN w (n % 10 ^ w)

/-- Strip trailing zeros from an implicit fixed-width fraction:
`trimFrac m k` divides out factors of 10 while reducing the width
`k`, returning (value, width). -/
def trimFrac : Nat → Nat → Nat × Nat
  | m, 0 => (m, 0)
  | m, k + 1 => if m % 10 = 0 then trimFrac (m / 10) k else (m, k + 1)

/-- Modelled from the spec: format a Time as `HH:MM:SS`, the fraction
emitted only when nonzero and trimmed to the minimal digit count that
round-trips the nanosecond value. -/
def formatTime (t : Time) : List Char :=
  padN 2 t.hour ++ ':' :: padN 2 t.minute ++ ':' :: padN 2 t.second ++
    (if t.nanosecond = 0 then []
     else '.' :: padN (trimFrac t.nanosecond 9).2 (trimFrac t.nanosecond 9).1)

/-- Modelled from the spec: format a Date as `YYYY-MM-DD` with
zero-padded fields. -/
def formatDate (dt : Date) : List Char :=
  padN 4 dt.year.toNat ++ '-' :: padN 2 dt.month ++ '-' :: padN 2 dt.day

/-- Modelled from the spec: offset rendered as `Z` when zero, else
`±HH:MM`. -/
def formatOffset (o : UtcOffset) : List Char :=
  if o.seconds = 0 then ['Z']
  else if 0 < o.seconds then
    '+' :: padN 2 (o.seconds.toNat / 3600) ++ ':' :: padN 2 (o.seconds.toNat % 3600 / 60)
  else
    '-' :: padN 2 ((-o.seconds).toNat / 3600) ++ ':' :: padN 2 ((-o.seconds).toNat % 3600 / 60)

/-- Modelled from the spec: format an OffsetDateTime as
`<date>T<time><offset>`; the exact inverse of parsing. -/
def OffsetDateTime.format (o : OffsetDateTime) : String :=
  String.mk (formatDate o.local_datetime.date ++
    'T' :: formatTime o.local_datetime.time ++ formatOffset o.offset)

/-- Value of a digit list under left-to-right decimal accumulation. -/
def digitsVal : Nat → List Char → Nat
  | acc, [] => acc
  | acc, c :: cs => digitsVal (acc * 10 + digVal c) cs

theorem digitsVal_nil (acc : Nat) : digitsVal acc [] = acc := rfl

theorem digitsVal_cons (acc : Nat) (c : Char) (cs : List Char) :
    digitsVal acc (c :: cs) = digitsVal (acc * 10 + digVal c) cs := rfl

theorem digitChar_isDigit {k : Nat} (h : k < 10) :
    (Nat.digitChar k).isDigit = true := by
  interval_cases k <;> decide

theorem digVal_digitChar {k : Nat} (h : k < 10) :
    digVal (Nat.digitChar k) = k := by
  interval_cases k <;> decide

theorem padN_length (w : Nat) : ∀ n, (padN w n).length = w := by
  induction w with
  | zero => intro n; rfl
  | succ w ih => intro n; simp [padN, ih]

theorem padN_digits (w : Nat) : ∀ n, n < 10 ^ w →
    ∀ c ∈ padN w n, c.isDigit = true := by
  induction w with
  | zero => intro n _ c hc; simp [padN] at hc
  | succ w ih =>
    intro n hn c hc
    have hpos : 0 < 10 ^ w := Nat.pos_pow_of_pos w (by omega)
    have hq : n / 10 ^ w < 10 := by
      rw [Nat.div_lt_iff_lt_mul hpos]
      calc n < 10 ^ (w + 1) := hn
        _ = 10 * 10 ^ w := by rw [pow_succ]; ring
    simp only [padN, List.mem_cons] at hc
    rcases hc with hc | hc
    · rw [hc]; exact digitChar_isDigit hq
    · exact ih (n % 10 ^ w) (Nat.mod_lt _ hpos) c hc

theorem parseFixed_padN (w : Nat) : ∀ (acc n : Nat), n < 10 ^ w → ∀ rest,
    parseFixed acc w (padN w n ++ rest) = .ok (acc * 10 ^ w + n, rest) := by
  induction w with
  | zero =>
    intro acc n h rest
    have hn : n = 0 := by omega
    simp [padN, parseFixed, hn]
  | succ w ih =>
    intro acc n h rest
    have hpos : 0 < 10 ^ w := Nat.pos_pow_of_pos w (by omega)
    have hq : n / 10 ^ w < 10 := by
      rw [Nat.div_lt_iff_lt_mul hpos]
      calc n < 10 ^ (w + 1) := h
        _ = 10 * 10 ^ w := by rw [pow_succ]; ring
    simp only [padN, List.cons_append, parseFixed, List.append_eq]
    rw [if_pos (digitChar_isDigit hq), digVal_digitChar hq]
    rw [ih (acc * 10 + n / 10 ^ w) (n % 10 ^ w) (Nat.mod_lt _ hpos) rest]
    have hval : (acc * 10 + n / 10 ^ w) * 10 ^ w + n % 10 ^ w = acc * 10 ^ (w + 1) + n := by
      have hP := Nat.div_add_mod n (10 ^ w)
      calc (acc * 10 + n / 10 ^ w) * 10 ^ w + n % 10 ^ w
          = acc * (10 ^ w * 10) + (10 ^ w * (n / 10 ^ w) + n % 10 ^ w) := by ring
        _ = acc * (10 ^ w * 10) + n := by rw [hP]
        _ = acc * 10 ^ (w + 1) + n := by rw [pow_succ]
    rw [hval]

theorem digitsVal_padN (w : Nat) : ∀ acc n, n < 10 ^ w →
    digitsVal acc (padN w n) = acc * 10 ^ w + n := by
  induction w with
  | zero =>
    intro acc n h
    have hn : n = 0 := by omega
    subst hn
    simp only [padN, digitsVal_nil, pow_zero]
    omega
  | succ w ih =>
    intro acc n h
    have hpos : 0 < 10 ^ w := Nat.pos_pow_of_pos w (by omega)
    have hq : n / 10 ^ w < 10 := by
      rw [Nat.div_lt_iff_lt_mul hpos]
      calc n < 10 ^ (w + 1) := h
        _ = 10 * 10 ^ w := by rw [pow_succ]; ring
    simp only [padN, digitsVal_cons]
    rw [digVal_digitChar hq]
    rw [ih (acc * 10 + n / 10 ^ w) (n % 10 ^ w) (Nat.mod_lt _ hpos)]
    have hP := Nat.div_add_mod n (10 ^ w)
    calc (acc * 10 + n / 10 ^ w) * 10 ^ w + n % 10 ^ w
        = acc * (10 ^ w * 10) + (10 ^ w * (n / 10 ^ w) + n % 10 ^ w) := by ring
      _ = acc * (10 ^ w * 10) + n := by rw [hP]
      _ = acc * 10 ^ (w + 1) + n := by rw [pow_succ]

theorem expectChar_cons (c : Char) (rest : List Char) :
    expectChar c (c :: rest) = .ok rest := by
  simp [expectChar]

theorem takeDigits_spec : ∀ (ds : List Char), (∀ c ∈ ds, c.isDigit = true) →
    ∀ acc cnt (rest : List Char),
    (∀ c cs, rest = c :: cs → c.isDigit = false) →
    takeDigits acc cnt (ds ++ rest) = (digitsVal acc ds, cnt + ds.length, rest) := by
  intro ds
  induction ds with
  | nil =>
    intro _ acc cnt rest hrest
    cases rest with
    | nil => rfl
    | cons c rs =>
      simp only [List.nil_append, takeDigits, digitsVal_nil]
      rw [if_neg (by simp [hrest c rs rfl]), List.length_nil]
      simp
  | cons c cs ih =>
    intro hds acc cnt rest hrest
    have hc : c.isDigit = true := hds c (by simp)
    simp only [List.cons_append, takeDigits, List.append_eq]
    rw [if_pos hc]
    rw [ih (fun x hx => hds x (by simp [hx])) (acc * 10 + digVal c) (cnt + 1) rest hrest]
    simp only [digitsVal_cons, List.length_cons]
    have : cnt + 1 + cs.length = cnt + (cs.length + 1) := by omega
    rw [this]

theorem trimFrac_spec : ∀ k m, 0 < m → m < 10 ^ k →
    0 < (trimFrac m k).1 ∧ (trimFrac m k).1 < 10 ^ (trimFrac m k).2 ∧
    (trimFrac m k).2 ≤ k ∧ 1 ≤ (trimFrac m k).2 ∧
    (trimFrac m k).1 * 10 ^ (k - (trimFrac m k).2) = m := by
  intro k
  induction k with
  | zero => intro m h1 h2; omega
  | succ k ih =>
    intro m h1 h2
    simp only [trimFrac]
    by_cases hm : m % 10 = 0
    · rw [if_pos hm]
      have h1' : 0 < m / 10 := by omega
      have h2' : m / 10 < 10 ^ k := by
        have hss : (10 : Nat) ^ (k + 1) = 10 * 10 ^ k := by rw [pow_succ]; ring
        omega
      obtain ⟨g1, g2, g3, g4, g5⟩ := ih (m / 10) h1' h2'
      refine ⟨g1, g2, by omega, g4, ?_⟩
      have hexp : (10 : Nat) ^ (k + 1 - (trimFrac (m / 10) k).2) =
          10 ^ (k - (trimFrac (m / 10) k).2) * 10 := by
        have : k + 1 - (trimFrac (m / 10) k).2 = (k - (trimFrac (m / 10) k).2) + 1 := by omega
        rw [this, pow_succ]
      rw [hexp]
      calc (trimFrac (m / 10) k).1 * (10 ^ (k - (trimFrac (m / 10) k).2) * 10)
          = (trimFrac (m / 10) k).1 * 10 ^ (k - (trimFrac (m / 10) k).2) * 10 := by ring
        _ = m / 10 * 10 := by rw [g5]
        _ = m := by omega
    · rw [if_neg hm]
      refine ⟨h1, h2, Nat.le_refl _, by omega, by simp⟩

theorem bind_ok_ex {α β : Type} (a : α) (f : α → Except Err β) :
    (Except.ok a >>= f) = f a := rfl

theorem bind_err_ex {α β : Type} (e : Err) (f : α → Except Err β) :
    ((Except.error e : Except Err α) >>= f) = Except.error e := rfl

/-- The Gregorian leap rule on integers is determined by the residue
modulo 400. -/
theorem isLeap_shift (e : Int) (k : Nat) (hk : k < 400) :
    isLeap (e * 400 + (k : Int)) = leapNat k := by
  unfold isLeap leapNat
  rw [decide_eq_decide]
  omega

/-- The derived civil fields of any epoch-day count form a valid date
with respect to the signed-year leap rule. -/
theorem civil_from_days_valid (z : Int) :
    1 ≤ (civil_from_days z).2.1 ∧ (civil_from_days z).2.1 ≤ 12 ∧
    1 ≤ (civil_from_days z).2.2 ∧
    (civil_from_days z).2.2 ≤ dimN (isLeap (civil_from_days z).1) (civil_from_days z).2.1 := by
  rw [civil_from_days_eq]
  dsimp only
  set q := (z + 719468) / 146097 with hq
  set r := (z + 719468) % 146097 with hr
  have hr0 : 0 ≤ r := Int.emod_nonneg _ (by norm_num)
  have hr1 : r < 146097 := Int.emod_lt_of_pos _ (by norm_num)
  set doe := r.toNat with hdoe
  have hdoelt : doe < 146097 := by omega
  obtain ⟨s1, s2, s3, s4, s5, s6⟩ := civilOfDoe_spec doe hdoelt
  by_cases hple : (civilOfDoe doe).2.1 ≤ 2
  · rw [if_pos hple]
    rw [if_pos hple] at s5
    refine ⟨s2, s3, s4, ?_⟩
    rcases Nat.lt_or_ge (civilOfDoe doe).1 399 with hc | hc
    · have hmd : ((civilOfDoe doe).1 + 1) % 400 = (civilOfDoe doe).1 + 1 :=
        Nat.mod_eq_of_lt (by omega)
      rw [hmd] at s5
      have hcast : q * 400 + ((civilOfDoe doe).1 : Int) + 1 =
          q * 400 + (((civilOfDoe doe).1 + 1 : Nat) : Int) := by push_cast; ring
      rw [hcast, isLeap_shift q _ (by omega)]
      exact s5
    · have h399 : (civilOfDoe doe).1 = 399 := by omega
      rw [h399] at s5
      have hz0 : (399 + 1) % 400 = 0 := by norm_num
      rw [hz0] at s5
      have hcast : q * 400 + ((civilOfDoe doe).1 : Int) + 1 =
          (q + 1) * 400 + ((0 : Nat) : Int) := by rw [h399]; push_cast; ring
      rw [hcast, isLeap_shift (q + 1) 0 (by omega)]
      exact s5
  · rw [if_neg hple]
    rw [if_neg hple] at s5
    refine ⟨s2, s3, s4, ?_⟩
    rw [isLeap_shift q _ (by omega)]
    exact s5

/-- Parsing the formatted text of a Date with a 4-digit year returns
the same Date and leaves the trailing input untouched. -/
theorem parseDateCore_format (dt : Date) (h0 : 0 ≤ dt.year) (h4 : dt.year ≤ 9999)
    (rest : List Char) :
    parseDateCore (formatDate dt ++ rest) = .ok (dt, rest) := by
  obtain ⟨v1, v2, v3, v4⟩ := civil_from_days_valid dt.days
  have hp4 : (10 : Nat) ^ 4 = 10000 := by norm_num
  have hp2 : (10 : Nat) ^ 2 = 100 := by norm_num
  have hyn : dt.year.toNat < 10 ^ 4 := by
    unfold Date.year at h0 h4 ⊢
    omega
  have hmn : dt.month < 10 ^ 2 := by
    unfold Date.month
    omega
  have hdn : dt.day < 10 ^ 2 := by
    unfold Date.day
    have h31 := dimN_le31 (isLeap (civil_from_days dt.days).1) (civil_from_days dt.days).2.1
    omega
  simp only [formatDate, parseDateCore, List.append_assoc, List.cons_append]
  rw [parseFixed_padN 4 0 dt.year.toNat hyn]
  rw [bind_ok_ex]
  dsimp only
  rw [expectChar_cons, bind_ok_ex]
  rw [parseFixed_padN 2 0 dt.month hmn, bind_ok_ex]
  dsimp only
  rw [expectChar_cons, bind_ok_ex]
  rw [parseFixed_padN 2 0 dt.day hdn, bind_ok_ex]
  dsimp only
  have hyy : ((0 * 10 ^ 4 + dt.year.toNat : Nat) : Int) = dt.year := by
    unfold Date.year at h0 ⊢
    omega
  have hcond : 1 ≤ 0 * 10 ^ 2 + dt.month ∧ 0 * 10 ^ 2 + dt.month ≤ 12 ∧
      1 ≤ 0 * 10 ^ 2 + dt.day ∧
      0 * 10 ^ 2 + dt.day ≤
        dimN (isLeap ((0 * 10 ^ 4 + dt.year.toNat : Nat) : Int)) (0 * 10 ^ 2 + dt.month) := by
    rw [hyy]
    unfold Date.year Date.month Date.day at *
    simp only [Nat.zero_mul, Nat.zero_add]
    exact ⟨v1, v2, v3, v4⟩
  rw [if_pos hcond]
  have hdays : days_from_civil ((0 * 10 ^ 4 + dt.year.toNat : Nat) : Int)
      (0 * 10 ^ 2 + dt.month) (0 * 10 ^ 2 + dt.day) = dt.days := by
    rw [hyy]
    simp only [Nat.zero_mul, Nat.zero_add]
    unfold Date.year Date.month Date.day
    exact days_civil_days dt.days
  rw [hdays]

/-- Parsing the formatted text of an in-range Time returns the same
Time, provided the trailing input does not begin with a digit or a
dot. -/
theorem parseTimeCore_format (t : Time) (h : t.nanos < DAY_NANOS) (rest : List Char)
    (hrest : ∀ c cs, rest = c :: cs → (c.isDigit = false ∧ c ≠ '.')) :
    parseTimeCore (formatTime t ++ rest) = .ok (t, rest) := by
  have hp2 : (10 : Nat) ^ 2 = 100 := by norm_num
  have hp9 : (10 : Nat) ^ 9 = 1000000000 := by norm_num
  unfold DAY_NANOS at h
  have hh23 : t.hour ≤ 23 := by unfold Time.hour; omega
  have hm59 : t.minute ≤ 59 := by unfold Time.minute; omega
  have hs59 : t.second ≤ 59 := by unfold Time.second; omega
  have hsplit : t.hour * 3600000000000 + t.minute * 60000000000 +
      t.second * 1000000000 + t.nanosecond = t.nanos := by
    unfold Time.hour Time.minute Time.second Time.nanosecond
    omega
  by_cases hn0 : t.nanosecond = 0
  · simp only [formatTime, if_pos hn0, List.append_nil, List.append_assoc,
      List.cons_append, parseTimeCore]
    rw [parseFixed_padN 2 0 t.hour (by omega), bind_ok_ex]
    dsimp only
    rw [expectChar_cons, bind_ok_ex]
    rw [parseFixed_padN 2 0 t.minute (by omega), bind_ok_ex]
    dsimp only
    rw [expectChar_cons, bind_ok_ex]
    rw [parseFixed_padN 2 0 t.second (by omega), bind_ok_ex]
    dsimp only
    simp only [Nat.zero_mul, Nat.zero_add]
    rw [if_pos (show t.hour ≤ 23 ∧ t.minute ≤ 59 ∧ t.second ≤ 59 from ⟨hh23, hm59, hs59⟩)]
    have hmk : Time.mk (t.hour * 3600000000000 + t.minute * 60000000000 +
        t.second * 1000000000) = t := by
      have hv : t.hour * 3600000000000 + t.minute * 60000000000 +
          t.second * 1000000000 = t.nanos := by omega
      rw [hv]
    rcases rest with _ | ⟨c, rs⟩
    · rw [hmk]
    · obtain ⟨hcd, hcdot⟩ := hrest c rs rfl
      split
      · next cs1 heq =>
          exfalso
          rw [List.cons.injEq] at heq
          exact hcdot heq.1
      · rw [hmk]
  · obtain ⟨f1, f2, f3, f4, f5⟩ := trimFrac_spec 9 t.nanosecond (by omega)
      (by unfold Time.nanosecond; omega)
    simp only [formatTime, if_neg hn0, List.append_assoc, List.cons_append, parseTimeCore]
    rw [parseFixed_padN 2 0 t.hour (by omega), bind_ok_ex]
    dsimp only
    rw [expectChar_cons, bind_ok_ex]
    rw [parseFixed_padN 2 0 t.minute (by omega), bind_ok_ex]
    dsimp only
    rw [expectChar_cons, bind_ok_ex]
    rw [parseFixed_padN 2 0 t.second (by omega), bind_ok_ex]
    dsimp only
    simp only [Nat.zero_mul, Nat.zero_add]
    rw [if_pos (show t.hour ≤ 23 ∧ t.minute ≤ 59 ∧ t.second ≤ 59 from ⟨hh23, hm59, hs59⟩)]
    have hdig : ∀ c ∈ padN (trimFrac t.nanosecond 9).2 (trimFrac t.nanosecond 9).1,
        c.isDigit = true := padN_digits _ _ f2
    have hrest2 : ∀ c cs, rest = c :: cs → c.isDigit = false :=
      fun c cs he => (hrest c cs he).1
    rw [takeDigits_spec _ hdig 0 0 rest hrest2]
    rw [digitsVal_padN _ 0 _ f2]
    simp only [Nat.zero_mul, Nat.zero_add, padN_length]
    rw [if_pos (show 1 ≤ (trimFrac t.nanosecond 9).2 ∧ (trimFrac t.nanosecond 9).2 ≤ 9
      from ⟨f4, f3⟩)]
    have hmk : Time.mk (t.hour * 3600000000000 + t.minute * 60000000000 +
        t.second * 1000000000 +
        (trimFrac t.nanosecond 9).1 * 10 ^ (9 - (trimFrac t.nanosecond 9).2)) = t := by
      rw [f5]
      rw [hsplit]
    rw [hmk]

/-- Parsing the formatted text of a minute-aligned in-range offset
returns the same offset. -/
theorem parseOffsetCore_format (o : UtcOffset) (h1 : -86400 < o.seconds)
    (h2 : o.seconds < 86400) (h60 : o.seconds % 60 = 0) (rest : List Char) :
    parseOffsetCore (formatOffset o ++ rest) = .ok (o, rest) := by
  have hp2 : (10 : Nat) ^ 2 = 100 := by norm_num
  rcases lt_trichotomy o.seconds 0 with hneg | hzero | hpos
  · have hn : ¬ o.seconds = 0 := by omega
    have hnp : ¬ 0 < o.seconds := by omega
    simp only [formatOffset, if_neg hn, if_neg hnp, List.cons_append,
      List.append_assoc, parseOffsetCore]
    rw [parseFixed_padN 2 0 ((-o.seconds).toNat / 3600) (by omega), bind_ok_ex]
    dsimp only
    rw [expectChar_cons, bind_ok_ex]
    rw [parseFixed_padN 2 0 ((-o.seconds).toNat % 3600 / 60) (by omega), bind_ok_ex]
    dsimp only
    simp only [Nat.zero_mul, Nat.zero_add]
    rw [if_pos (show (-o.seconds).toNat / 3600 ≤ 23 ∧ (-o.seconds).toNat % 3600 / 60 ≤ 59
      from by omega)]
    have hmk : UtcOffset.mk (-(((-o.seconds).toNat / 3600 * 3600 +
        (-o.seconds).toNat % 3600 / 60 * 60 : Nat) : Int)) = o := by
      have hv : -((((-o.seconds).toNat / 3600 * 3600 +
          (-o.seconds).toNat % 3600 / 60 * 60 : Nat) : Int)) = o.seconds := by
        omega
      rw [hv]
    rw [hmk]
  · simp only [formatOffset, if_pos hzero, List.cons_append, List.nil_append,
      parseOffsetCore]
    have hmk : UtcOffset.mk 0 = o := by rw [← hzero]
    rw [hmk]
  · have hn : ¬ o.seconds = 0 := by omega
    simp only [formatOffset, if_neg hn, if_pos hpos, List.cons_append,
      List.append_assoc, parseOffsetCore]
    rw [parseFixed_padN 2 0 (o.seconds.toNat / 3600) (by omega), bind_ok_ex]
    dsimp only
    rw [expectChar_cons, bind_ok_ex]
    rw [parseFixed_padN 2 0 (o.seconds.toNat % 3600 / 60) (by omega), bind_ok_ex]
    dsimp only
    simp only [Nat.zero_mul, Nat.zero_add]
    rw [if_pos (show o.seconds.toNat / 3600 ≤ 23 ∧ o.seconds.toNat % 3600 / 60 ≤ 59
      from by omega)]
    have hmk : UtcOffset.mk (((o.seconds.toNat / 3600 * 3600 +
        o.seconds.toNat % 3600 / 60 * 60 : Nat) : Int)) = o := by
      have hv : (((o.seconds.toNat / 3600 * 3600 +
          o.seconds.toNat % 3600 / 60 * 60 : Nat) : Int)) = o.seconds := by
        omega
      rw [hv]
    rw [hmk]

/-- The formatted offset never begins with a digit or a dot. -/
theorem formatOffset_head (off : UtcOffset) :
    ∀ c cs, formatOffset off = c :: cs → (c.isDigit = false ∧ c ≠ '.') := by
  intro c cs he
  unfold formatOffset at he
  by_cases h1 : off.seconds = 0
  · rw [if_pos h1] at he
    rw [List.cons.injEq] at he
    obtain ⟨hc, -⟩ := he
    subst hc
    exact ⟨by decide, by decide⟩
  · rw [if_neg h1] at he
    by_cases h2 : 0 < off.seconds
    · rw [if_pos h2] at he
      simp only [List.cons_append, List.cons.injEq] at he
      obtain ⟨hc, -⟩ := he
      subst hc
      exact ⟨by decide, by decide⟩
    · rw [if_neg h2] at he
      simp only [List.cons_append, List.cons.injEq] at he
      obtain ⟨hc, -⟩ := he
      subst hc
      exact ⟨by decide, by decide⟩

/-- Bit-for-bit round-trip: parsing the formatted text of an
OffsetDateTime whose local time is in range, whose year has at most four
digits, and whose offset is whole minutes inside (-24h, 24h), returns
the identical value. -/
theorem parse_format (o : OffsetDateTime)
    (hT : o.local_datetime.time.nanos < DAY_NANOS)
    (h0 : 0 ≤ o.local_datetime.date.year) (h4 : o.local_datetime.date.year ≤ 9999)
    (ho1 : -86400 < o.offset.seconds) (ho2 : o.offset.seconds < 86400)
    (ho60 : o.offset.seconds % 60 = 0) :
    OffsetDateTime.parse o.format = .ok o := by
  unfold OffsetDateTime.parse OffsetDateTime.format
  have htl : (String.mk (formatDate o.local_datetime.date ++
      'T' :: formatTime o.local_datetime.time ++ formatOffset o.offset)).toList =
      formatDate o.local_datetime.date ++
      'T' :: formatTime o.local_datetime.time ++ formatOffset o.offset := rfl
  rw [htl]
  simp only [List.cons_append, List.append_assoc]
  rw [parseDateCore_format o.local_datetime.date h0 h4
    ('T' :: (formatTime o.local_datetime.time ++ formatOffset o.offset))]
  rw [bind_ok_ex]
  dsimp only
  rw [expectChar_cons, bind_ok_ex]
  rw [parseTimeCore_format o.local_datetime.time hT (formatOffset o.offset)
    (formatOffset_head o.offset)]
  rw [bind_ok_ex]
  dsimp only
  have hoff : parseOffsetCore (formatOffset o.offset) = .ok (o.offset, []) := by
    have hx := parseOffsetCore_format o.offset ho1 ho2 ho60 []
    rwa [List.append_nil] at hx
  rw [hoff, bind_ok_ex]
  rfl

/-- C1: difference is the signed nanosecond distance (a − b): for every
DateTime x and Duration d, x.add_duration(d).difference(x) = d, and for
every canonical DateTime a (nanos-of-day in range) and any DateTime b,
b.add_duration(a.difference(b)) = a. -/
theorem claim_C1 :
    (∀ (x : DateTime) (d : Duration), (x.add_duration d).difference x = d) ∧
    (∀ (a b : DateTime), a.time.nanos < DAY_NANOS →
      b.add_duration (a.difference b) = a) := by
  constructor
  · intro x d
    obtain ⟨⟨xd⟩, ⟨xn⟩⟩ := x
    obtain ⟨dn⟩ := d
    unfold DateTime.add_duration DateTime.difference DateTime.pos DAY_NANOS
    dsimp only
    exact congrArg Duration.mk (by omega)
  · intro a b hval
    obtain ⟨⟨ad⟩, ⟨an⟩⟩ := a
    obtain ⟨⟨bd⟩, ⟨bn⟩⟩ := b
    unfold DAY_NANOS at hval
    dsimp only at hval
    unfold DateTime.add_duration DateTime.difference DateTime.pos DAY_NANOS
    dsimp only
    simp only [DateTime.mk.injEq, Date.mk.injEq, Time.mk.injEq]
    constructor
    · omega
    · omega

theorem claim_C1_witness :
    (DateTime.mk ⟨-5⟩ ⟨999⟩).add_duration
        ((DateTime.mk ⟨0⟩ ⟨100⟩).difference (DateTime.mk ⟨-5⟩ ⟨999⟩)) =
      DateTime.mk ⟨0⟩ ⟨100⟩ :=
  claim_C1.2 (DateTime.mk ⟨0⟩ ⟨100⟩) (DateTime.mk ⟨-5⟩ ⟨999⟩) (by decide)

/-- C2: to_epoch_days and from_epoch_days are mutual inverses: the civil
fields derived from a constructed date recover the inputs, the epoch-day
count round-trips through the Date type, and re-constructing a date from
the derived fields of any epoch-day count returns the same Date. -/
theorem claim_C2 :
    (∀ (y : Int) (m d : Nat), 1 ≤ m → m ≤ 12 → 1 ≤ d → d ≤ dimN (isLeap y) m →
      (date y m d).map (fun dt => (dt.year, dt.month, dt.day)) = .ok (y, m, d)) ∧
    (∀ n : Int, (Date.from_days_since_unix_epoch n).days_since_unix_epoch = n) ∧
    (∀ n : Int, date (Date.from_days_since_unix_epoch n).year
        (Date.from_days_since_unix_epoch n).month
        (Date.from_days_since_unix_epoch n).day = .ok (Date.from_days_since_unix_epoch n)) := by
  refine ⟨?_, fun n => rfl, ?_⟩
  · intro y m d h1 h2 h3 h4
    unfold date
    rw [if_pos ⟨h1, h2⟩, if_pos ⟨h3, h4⟩]
    simp only [Except.map]
    unfold Date.year Date.month Date.day
    dsimp only
    rw [civil_days_civil y m d h1 h2 h3 h4]
  · intro n
    unfold date Date.from_days_since_unix_epoch Date.year Date.month Date.day
    dsimp only
    obtain ⟨v1, v2, v3, v4⟩ := civil_from_days_valid n
    rw [if_pos ⟨v1, v2⟩, if_pos ⟨v3, v4⟩, days_civil_days n]

theorem claim_C2_witness :
    (date 2024 2 29).map (fun dt => (dt.year, dt.month, dt.day)) = .ok (2024, 2, 29) :=
  claim_C2.1 2024 2 29 (by decide) (by decide) (by decide) (by decide)

/-- C5: from_unix_timestamp is the inverse of the Unix timestamp
accessors with floor-based day/time splitting — it round-trips every
signed second count (negative ones included) and sub-second nanos count,
and from_unix_timestamp(-86400) falls on 1969-12-31. -/
theorem claim_C5 :
    (∀ (s : Int) (n : Nat), n < 1000000000 →
      (DateTime.from_unix_timestamp s n).unix_timestamp = s ∧
      (DateTime.from_unix_timestamp s n).time.nanosecond = n ∧
      (DateTime.from_unix_timestamp s n).unix_timestamp_nanos = s * 1000000000 + (n : Int) ∧
      (DateTime.from_unix_timestamp s n).time.nanos < DAY_NANOS) ∧
    ((DateTime.from_unix_timestamp (-86400) 0).date.year = 1969 ∧
      (DateTime.from_unix_timestamp (-86400) 0).date.month = 12 ∧
      (DateTime.from_unix_timestamp (-86400) 0).date.day = 31 ∧
      date 1969 12 31 = .ok (DateTime.from_unix_timestamp (-86400) 0).date) := by
  constructor
  · intro s n hn
    refine ⟨?_, ?_, ?_, ?_⟩
    · unfold DateTime.from_unix_timestamp DateTime.unix_timestamp
      dsimp only
      omega
    · unfold DateTime.from_unix_timestamp Time.nanosecond
      dsimp only
      omega
    · unfold DateTime.from_unix_timestamp DateTime.unix_timestamp_nanos DateTime.pos DAY_NANOS
      dsimp only
      omega
    · unfold DateTime.from_unix_timestamp DAY_NANOS
      dsimp only
      omega
  · exact ⟨rfl, rfl, rfl, rfl⟩

theorem claim_C5_witness :
    (DateTime.from_unix_timestamp 1700000000 123456789).unix_timestamp = 1700000000 ∧
    (DateTime.from_unix_timestamp 1700000000 123456789).time.nanosecond = 123456789 ∧
    (DateTime.from_unix_timestamp 1700000000 123456789).unix_timestamp_nanos =
      1700000000 * 1000000000 + (123456789 : Int) ∧
    (DateTime.from_unix_timestamp 1700000000 123456789).time.nanos < DAY_NANOS :=
  claim_C5.1 1700000000 123456789 (by decide)

/-- C6: weekday is epoch-day arithmetic modulo 7 against the fixed
reference 1970-01-01 = Thursday, with floor modulo, hence stepping one
day cyclically advances the weekday over all integers, it is 7-periodic
(also for negative day counts), and 2024-01-01 is a Monday. -/
theorem claim_C6 :
    (∀ n : Int, (Date.mk (n + 1)).weekday = (Date.mk n).weekday.next) ∧
    ((Date.mk 0).weekday = .thursday) ∧
    (∀ n : Int, (Date.mk (n + 7)).weekday = (Date.mk n).weekday) ∧
    ((date 2024 1 1).map Date.weekday = .ok .monday) := by
  refine ⟨?_, rfl, ?_, rfl⟩
  · intro n
    unfold Date.weekday Weekday.next
    dsimp only
    have h0 : 0 ≤ (n + 3) % 7 := Int.emod_nonneg _ (by norm_num)
    have h1 : (n + 3) % 7 < 7 := Int.emod_lt_of_pos _ (by norm_num)
    rcases (by omega : (n + 3) % 7 = 0 ∨ (n + 3) % 7 = 1 ∨ (n + 3) % 7 = 2 ∨
        (n + 3) % 7 = 3 ∨ (n + 3) % 7 = 4 ∨ (n + 3) % 7 = 5 ∨ (n + 3) % 7 = 6)
      with h | h | h | h | h | h | h
    · rw [show (n + 1 + 3) % 7 = 1 by omega, h]
      decide
    · rw [show (n + 1 + 3) % 7 = 2 by omega, h]
      decide
    · rw [show (n + 1 + 3) % 7 = 3 by omega, h]
      decide
    · rw [show (n + 1 + 3) % 7 = 4 by omega, h]
      decide
    · rw [show (n + 1 + 3) % 7 = 5 by omega, h]
      decide
    · rw [show (n + 1 + 3) % 7 = 6 by omega, h]
      decide
    · rw [show (n + 1 + 3) % 7 = 0 by omega, h]
      decide
  · intro n
    unfold Date.weekday
    dsimp only
    rw [show (n + 7 + 3) % 7 = (n + 3) % 7 by omega]

/-- C3: OffsetDateTime equality compares derived UTC instants only — it
holds exactly when the derived UTC nanosecond coordinates coincide,
regardless of the stored offset; in particular the parses of
2024-06-15T12:00:00-05:00 and 2024-06-15T17:00:00Z are equal as instants
while storing different offsets. -/
theorem claim_C3 :
    (∀ a b : OffsetDateTime, a.eqInstant b ↔ a.utc.pos = b.utc.pos) ∧
    (OffsetDateTime.parse "2024-06-15T12:00:00-05:00" =
      .ok ⟨⟨⟨19889⟩, ⟨43200000000000⟩⟩, ⟨-18000⟩⟩ ∧
     OffsetDateTime.parse "2024-06-15T17:00:00Z" =
      .ok ⟨⟨⟨19889⟩, ⟨61200000000000⟩⟩, ⟨0⟩⟩ ∧
     (OffsetDateTime.mk ⟨⟨19889⟩, ⟨43200000000000⟩⟩ ⟨-18000⟩).eqInstant
       (OffsetDateTime.mk ⟨⟨19889⟩, ⟨61200000000000⟩⟩ ⟨0⟩) ∧
     (OffsetDateTime.mk ⟨⟨19889⟩, ⟨43200000000000⟩⟩ ⟨-18000⟩).offset ≠
       (OffsetDateTime.mk ⟨⟨19889⟩, ⟨61200000000000⟩⟩ ⟨0⟩).offset) := by
  constructor
  · intro a b
    obtain ⟨⟨⟨ad⟩, ⟨an⟩⟩, ⟨ao⟩⟩ := a
    obtain ⟨⟨⟨bd⟩, ⟨bn⟩⟩, ⟨bo⟩⟩ := b
    unfold OffsetDateTime.eqInstant OffsetDateTime.utc DateTime.add_duration DateTime.pos DAY_NANOS
    dsimp only
    constructor
    · intro h
      exact congrArg DateTime.pos h
    · intro h
      simp only [DateTime.mk.injEq, Date.mk.injEq, Time.mk.injEq]
      constructor
      · omega
      · omega
  · refine ⟨rfl, rfl, ?_, by decide⟩
    rfl

/-- C7: Duration arithmetic is exact on the canonical signed-nanosecond
value — (d1 + d2) − d2 = d1 and −(−d1) = d1 whenever the intermediate
results are representable, total_nanos is additive over a successful
addition, and addition fails with Overflow exactly when the exact sum
leaves the representable range (no silent wrapping). -/
theorem claim_C7 :
    (∀ a b s r : Duration, a.add b = .ok s → s.sub b = .ok r → r = a) ∧
    (∀ a n m : Duration, a.neg = .ok n → n.neg = .ok m → m = a) ∧
    (∀ a b s : Duration, a.add b = .ok s →
      a.total_nanos + b.total_nanos = s.total_nanos) ∧
    (∀ a b : Duration, a.add b = .error .Overflow ↔
      (a.nanos + b.nanos < DUR_MIN ∨ DUR_MAX < a.nanos + b.nanos)) := by
  refine ⟨?_, ?_, ?_, ?_⟩
  · intro a b s r hadd hsub
    unfold Duration.add mkDuration at hadd
    split at hadd
    · injection hadd with h1
      rw [← h1] at hsub
      unfold Duration.sub mkDuration at hsub
      split at hsub
      · injection hsub with h2
        rw [← h2]
        exact congrArg Duration.mk (by dsimp only; omega)
      · exact Except.noConfusion hsub
    · exact Except.noConfusion hadd
  · intro a n m hneg1 hneg2
    unfold Duration.neg mkDuration at hneg1
    split at hneg1
    · injection hneg1 with h1
      rw [← h1] at hneg2
      unfold Duration.neg mkDuration at hneg2
      split at hneg2
      · injection hneg2 with h2
        rw [← h2]
        exact congrArg Duration.mk (by dsimp only; omega)
      · exact Except.noConfusion hneg2
    · exact Except.noConfusion hneg1
  · intro a b s hadd
    unfold Duration.add mkDuration at hadd
    split at hadd
    · injection hadd with h1
      rw [← h1]
      rfl
    · exact Except.noConfusion hadd
  · intro a b
    unfold Duration.add mkDuration
    by_cases hc : DUR_MIN ≤ a.nanos + b.nanos ∧ a.nanos + b.nanos ≤ DUR_MAX
    · rw [if_pos hc]
      constructor
      · intro h
        exact Except.noConfusion h
      · intro h
        exfalso
        omega
    · rw [if_neg hc]
      constructor
      · intro _
        omega
      · intro _
        rfl

theorem claim_C7_witness :
    (Duration.mk 10).add ⟨5⟩ = .ok ⟨15⟩ ∧
    (Duration.mk 15).sub ⟨5⟩ = .ok ⟨10⟩ ∧
    (Duration.mk 10 : Duration) = ⟨10⟩ :=
  ⟨by decide, by decide,
    claim_C7.1 ⟨10⟩ ⟨5⟩ ⟨15⟩ ⟨10⟩ (by decide) (by decide)⟩

/-- C9: construction is eagerly validated — date succeeds exactly when
the month and day are in Gregorian range, time succeeds exactly when all
fields are in range, and the listed invalid inputs fail with
InvalidComponent. -/
theorem claim_C9 :
    (∀ (y : Int) (m d : Nat), (∃ dt, date y m d = .ok dt) ↔
      (1 ≤ m ∧ m ≤ 12 ∧ 1 ≤ d ∧ d ≤ dimN (isLeap y) m)) ∧
    (∀ (y : Int) (m d : Nat), ¬(1 ≤ m ∧ m ≤ 12 ∧ 1 ≤ d ∧ d ≤ dimN (isLeap y) m) →
      date y m d = .error .InvalidComponent) ∧
    (∀ (h mi s n : Nat), (∃ t, time h mi s n = .ok t) ↔
      (h ≤ 23 ∧ mi ≤ 59 ∧ s ≤ 59 ∧ n ≤ 999999999)) ∧
    (∀ (h mi s n : Nat), ¬(h ≤ 23 ∧ mi ≤ 59 ∧ s ≤ 59 ∧ n ≤ 999999999) →
      time h mi s n = .error .InvalidComponent) ∧
    (date 2024 13 1 = .error .InvalidComponent) ∧
    (date 2024 2 30 = .error .InvalidComponent) ∧
    (time 25 0 0 0 = .error .InvalidComponent) := by
  refine ⟨?_, ?_, ?_, ?_, by decide, by decide, by decide⟩
  · intro y m d
    unfold date
    constructor
    · intro ⟨dt, hdt⟩
      by_cases h1 : 1 ≤ m ∧ m ≤ 12
      · rw [if_pos h1] at hdt
        by_cases h2 : 1 ≤ d ∧ d ≤ dimN (isLeap y) m
        · exact ⟨h1.1, h1.2, h2.1, h2.2⟩
        · rw [if_neg h2] at hdt
          exact Except.noConfusion hdt
      · rw [if_neg h1] at hdt
        exact Except.noConfusion hdt
    · intro ⟨h1, h2, h3, h4⟩
      rw [if_pos ⟨h1, h2⟩, if_pos ⟨h3, h4⟩]
      exact ⟨_, rfl⟩
  · intro y m d hno
    unfold date
    by_cases h1 : 1 ≤ m ∧ m ≤ 12
    · rw [if_pos h1]
      rw [if_neg (fun h2 => hno ⟨h1.1, h1.2, h2.1, h2.2⟩)]
    · rw [if_neg h1]
  · intro h mi s n
    unfold time
    constructor
    · intro ⟨t, ht⟩
      by_cases h1 : h ≤ 23 ∧ mi ≤ 59 ∧ s ≤ 59 ∧ n ≤ 999999999
      · exact h1
      · rw [if_neg h1] at ht
        exact Except.noConfusion ht
    · intro h1
      rw [if_pos h1]
      exact ⟨_, rfl⟩
  · intro h mi s n hno
    unfold time
    rw [if_neg hno]

/-- C10: the hash of a Date is a pure function of its value, so equal
dates hash equally; the three-element set example collapses the
duplicated 2024-01-01 while keeping 2024-12-31 distinct, and those two
dates hash differently. -/
theorem claim_C10 :
    (∀ a b : Date, a = b → a.hashVal = b.hashVal) ∧
    (({⟨19723⟩, ⟨19723⟩, ⟨20088⟩} : Finset Date).card = 2) ∧
    ((Date.mk 19723).hashVal ≠ (Date.mk 20088).hashVal) := by
  refine ⟨fun a b h => by rw [h], by decide, by decide⟩

theorem claim_C10_witness :
    (Date.mk 19723).hashVal = (Date.mk 19723).hashVal :=
  claim_C10.1 ⟨19723⟩ ⟨19723⟩ rfl

/-- C4 as stated fails: a representable OffsetDateTime with year 10000
formats outside the fixed `YYYY` grammar and no longer parses, and one
with a sub-minute offset formats to whole minutes and parses to a
different offset. -/
theorem claim_C4_counterexample :
    OffsetDateTime.parse (OffsetDateTime.format
        ⟨⟨⟨days_from_civil 10000 1 1⟩, ⟨0⟩⟩, ⟨0⟩⟩) ≠
      .ok ⟨⟨⟨days_from_civil 10000 1 1⟩, ⟨0⟩⟩, ⟨0⟩⟩ ∧
    OffsetDateTime.parse (OffsetDateTime.format ⟨⟨⟨0⟩, ⟨0⟩⟩, ⟨90⟩⟩) ≠
      .ok ⟨⟨⟨0⟩, ⟨0⟩⟩, ⟨90⟩⟩ :=
  ⟨by decide, by decide⟩

/-- C4 (amended): for every OffsetDateTime whose local time is in
range, whose year lies in [0, 9999], and whose offset is a whole number
of minutes inside (-24h, 24h), parsing the formatted text returns the
identical value bit-for-bit; and formatting the parse of
2024-06-15T14:30:45.123456789+05:30 reproduces the identical string. -/
theorem claim_C4 :
    (∀ o : OffsetDateTime, o.local_datetime.time.nanos < DAY_NANOS →
      0 ≤ o.local_datetime.date.year → o.local_datetime.date.year ≤ 9999 →
      -86400 < o.offset.seconds → o.offset.seconds < 86400 →
      o.offset.seconds % 60 = 0 →
      OffsetDateTime.parse o.format = .ok o) ∧
    ((OffsetDateTime.parse "2024-06-15T14:30:45.123456789+05:30").map
        OffsetDateTime.format = .ok "2024-06-15T14:30:45.123456789+05:30") :=
  ⟨fun o h1 h2 h3 h4 h5 h6 => parse_format o h1 h2 h3 h4 h5 h6, rfl⟩

theorem claim_C4_witness :
    OffsetDateTime.parse (OffsetDateTime.format
        ⟨⟨⟨19889⟩, ⟨52245123456789⟩⟩, ⟨19800⟩⟩) =
      .ok ⟨⟨⟨19889⟩, ⟨52245123456789⟩⟩, ⟨19800⟩⟩ :=
  claim_C4.1 ⟨⟨⟨19889⟩, ⟨52245123456789⟩⟩, ⟨19800⟩⟩
    (by decide) (by decide) (by decide) (by decide) (by decide) (by decide)

/-- C8: time parsing accepts `HH:MM:SS` followed by `.` and any digit
run, right-padding 1 to 9 fractional digits to nanoseconds and
rejecting longer runs with ParseError; the listed concrete fractions
parse to 123456789, 500000000 and 123000000 nanoseconds, and a 10-digit
fraction is rejected. -/
theorem claim_C8 :
    (∀ (h mi s : Nat) (ds : List Char), h ≤ 23 → mi ≤ 59 → s ≤ 59 →
      ds ≠ [] → (∀ c ∈ ds, c.isDigit = true) →
      Time.parse (String.mk
          (padN 2 h ++ ':' :: padN 2 mi ++ ':' :: padN 2 s ++ '.' :: ds)) =
        if ds.length ≤ 9 then
          .ok ⟨h * 3600000000000 + mi * 60000000000 + s * 1000000000 +
            digitsVal 0 ds * 10 ^ (9 - ds.length)⟩
        else .error .ParseError) ∧
    ((Time.parse "14:30:45.123456789").map Time.nanosecond = .ok 123456789) ∧
    ((Time.parse "00:00:00.5").map Time.nanosecond = .ok 500000000) ∧
    ((Time.parse "00:00:00.123").map Time.nanosecond = .ok 123000000) ∧
    (Time.parse "14:30:45.1234567890" = .error .ParseError) := by
  refine ⟨?_, rfl, rfl, rfl, rfl⟩
  intro h mi s ds hh hmi hs hne hdig
  have hp2 : (10 : Nat) ^ 2 = 100 := by norm_num
  unfold Time.parse
  have htl : (String.mk
      (padN 2 h ++ ':' :: padN 2 mi ++ ':' :: padN 2 s ++ '.' :: ds)).toList =
      padN 2 h ++ ':' :: padN 2 mi ++ ':' :: padN 2 s ++ '.' :: ds := rfl
  rw [htl]
  simp only [List.cons_append, List.append_assoc]
  unfold parseTimeCore
  rw [parseFixed_padN 2 0 h (by omega), bind_ok_ex]
  dsimp only
  rw [expectChar_cons, bind_ok_ex]
  rw [parseFixed_padN 2 0 mi (by omega), bind_ok_ex]
  dsimp only
  rw [expectChar_cons, bind_ok_ex]
  rw [parseFixed_padN 2 0 s (by omega), bind_ok_ex]
  dsimp only
  simp only [Nat.zero_mul, Nat.zero_add]
  rw [if_pos (show h ≤ 23 ∧ mi ≤ 59 ∧ s ≤ 59 from ⟨hh, hmi, hs⟩)]
  have hall : takeDigits 0 0 ds = (digitsVal 0 ds, 0 + ds.length, []) := by
    have hx := takeDigits_spec ds hdig 0 0 [] (fun c cs hcc => List.noConfusion hcc)
    rwa [List.append_nil] at hx
  rw [hall]
  simp only [Nat.zero_add]
  have hlpos : 1 ≤ ds.length := by
    cases ds with
    | nil => exact absurd rfl hne
    | cons c cs => simp
  rcases Nat.lt_or_ge 9 ds.length with hlen | hlen
  · rw [if_neg (by omega), if_neg (by omega)]
  · rw [if_pos ⟨hlpos, hlen⟩, if_pos hlen]

theorem claim_C8_witness :
    Time.parse (String.mk
        (padN 2 14 ++ ':' :: padN 2 30 ++ ':' :: padN 2 45 ++ '.' :: ['1', '2', '3'])) =
      if (['1', '2', '3'] : List Char).length ≤ 9 then
        .ok ⟨14 * 3600000000000 + 30 * 60000000000 + 45 * 1000000000 +
          digitsVal 0 ['1', '2', '3'] * 10 ^ (9 - (['1', '2', '3'] : List Char).length)⟩
      else .error .ParseError :=
  claim_C8.1 14 30 45 ['1', '2', '3'] (by decide) (by decide) (by decide)
    (by decide) (by decide)

theorem claim_C9_witness :
    date 2024 13 1 = .error .InvalidComponent :=
  claim_C9.2.1 2024 13 1 (by decide)

end Fasttime
